import Mathlib

/-
Verification of the kubernetescontroller package of FigureTechnologies/fabric
(core/container/kubernetescontroller/kubernetescontroller.go) against its
natural-language specification.  Strings are embedded as lists of characters
(the keys involved are ASCII, so Go byte indices coincide with character
indices); Go maps are embedded as association lists whose head plays the role
of the map's first iteration key; the external Kubernetes client is an oracle
recording which calls are made and what each returns.
-/

namespace Fabric

/-- Go strings.LastIndex(s, sep) for a one-character separator: the index of
the last occurrence of the character in the list, or -1 when it is absent. -/
def lastIndexC (s : List Char) (c : Char) : Int :=
  match s with
  | [] => -1
  | a :: rest =>
    if 0 ≤ lastIndexC rest c then lastIndexC rest c + 1
    else if a = c then 0 else -1

/-- The loop body of extractCommonRoot line 428: rootPath[0 : LastIndex+1],
trimming the candidate back to (and including) its last separator. -/
def trimToLastSep (rootPath : List Char) : List Char :=
  rootPath.take ((lastIndexC rootPath '/').toNat + 1)

/-- Lines 429-434: strings.HasPrefix(k, rootPath) checked over every key. -/
def allHavePrefix (keys : List (List Char)) (rootPath : List Char) : Bool :=
  keys.all fun k => rootPath.isPrefixOf k

/-- The while loop of extractCommonRoot lines 427-436, with an explicit fuel
bound: none means the fuel ran out with the loop condition still true, so the
Go loop, which repeats the very same state transformation, has not exited
within that many iterations. -/
def findRootLoop (keys : List (List Char)) : Nat → Bool → List Char → Option (List Char)
  | 0, foundRoot, rootPath =>
    if foundRoot = false ∧ 0 < lastIndexC rootPath '/' then none else some rootPath
  | fuel + 1, foundRoot, rootPath =>
    if foundRoot = false ∧ 0 < lastIndexC rootPath '/' then
      let rootPath2 := trimToLastSep rootPath
      findRootLoop keys fuel (allHavePrefix keys rootPath2) rootPath2
    else some rootPath

/-- Go strings.Replace(s, old, new, 1) with new = "": remove the first
occurrence of old from s; an empty old matches at the start and removes
nothing (line 441). -/
def stripFirstAux (old : List Char) : List Char → List Char
  | [] => []
  | c :: cs => if old.isPrefixOf (c :: cs) then (c :: cs).drop old.length else c :: stripFirstAux old cs

def stripFirst (old s : List Char) : List Char :=
  if old = [] then s else stripFirstAux old s

/-- A FileBundle: an association list from path to payload, standing for the
Go map filesToUpload of type map from string to byte slice.  The head of the
list plays the role of reflect.ValueOf(m).MapKeys()[0], the key the algorithm
starts from. -/
abbrev Bundle := List (List Char × Nat)

/-- extractCommonRoot, kubernetescontroller.go lines 414-445, with an explicit
fuel bound on its while loop: some r means the Go function returns r, none
means the loop has not exited within the given fuel. -/
def extractCommonRoot (fuel : Nat) (filesToUpload : Bundle) : Option (List Char × Bundle) :=
  match filesToUpload with
  | [] => some ([], [])
  | (k0, _) :: _ =>
    let rootPath0 := k0
    let foundRoot0 := decide (lastIndexC rootPath0 '/' < 0)
    let rootPath1 := if foundRoot0 then [] else rootPath0
    match findRootLoop (filesToUpload.map Prod.fst) fuel foundRoot0 rootPath1 with
    | none => none
    | some rootPath =>
      some (rootPath, filesToUpload.map fun kv => (stripFirst rootPath kv.1, kv.2))

/-- A parsed Kubernetes resource quantity: the validated original string is
retained (quantities are passed through unparsed except for validity
checking). -/
structure Quantity where
  val : List Char
deriving DecidableEq, Repr

def isQuantityNumChar (c : Char) : Bool := c.isDigit || c = '.'

def isQuantitySuffixChar (c : Char) : Bool :=
  c = 'e' || c = 'E' || c = 'i' || c = 'n' || c = 'u' || c = 'm' ||
  c = 'k' || c = 'K' || c = 'M' || c = 'G' || c = 'T' || c = 'P'

/-- An optional leading sign character, dropped. -/
def dropSign (s : List Char) : List Char :=
  match s with
  | [] => []
  | c :: rest => if c = '+' || c = '-' then rest else s

/-- Modelled from the spec: resource.ParseQuantity of the external
k8s.io/apimachinery library (not part of this repository) accepts the
orchestrator's native quantity syntax, an optional sign, a nonempty run of
digits or dots, suffix letters, an optional sign and trailing digits; its
result and error are functions of the value string alone (the parser is
never told which configuration key the value came from). -/
def quantityWellFormed (s : List Char) : Bool :=
  let s1 := dropSign s
  let num := s1.takeWhile isQuantityNumChar
  let r1 := s1.dropWhile isQuantityNumChar
  let r2 := r1.dropWhile isQuantitySuffixChar
  let r3 := dropSign r2
  (!num.isEmpty) && r3.all Char.isDigit

/-- The error values the embedded functions return: a quantity parse error
carries the malformed value and only the value (see quantityWellFormed), a
not-found error carries the pod name (fmt.Errorf at line 203), and orch
stands for an arbitrary error surfaced by the Kubernetes client, identified
by an opaque tag. -/
inductive GoError
  | quantityParse (value : List Char)
  | notFound (name : List Char)
  | orch (tag : Nat)
deriving DecidableEq, Repr

/-- The viper configuration: a total lookup from key to string value, the
empty string standing for an unset key (viper.GetString semantics). -/
abbrev Config := List Char → List Char

/-- getResourceQuantity, lines 306-319: an empty config value means unset
(nil, nil); otherwise parse, propagating the parse error unchanged. -/
def getResourceQuantity (cfg : Config) (key : List Char) : Except GoError (Option Quantity) :=
  if cfg key = [] then Except.ok none
  else if quantityWellFormed (cfg key) then Except.ok (some (Quantity.mk (cfg key)))
  else Except.error (GoError.quantityParse (cfg key))

/-- apiv1.ResourceRequirements: the limits and requests maps, embedded as
association lists (the four resource names written to are distinct). -/
structure ResourceRequirements where
  limits : List (List Char × Quantity)
  requests : List (List Char × Quantity)
deriving DecidableEq, Repr

/-- The Sprintf of lines 327-330: vm.kubernetes.container. followed by the
resource name. -/
def resourceKey (k : List Char) : List Char := "vm.kubernetes.container.".data ++ k

def limitsCPUName : List Char := "limits.cpu".data

def limitsMemoryName : List Char := "limits.memory".data

def requestsCPUName : List Char := "requests.cpu".data

def requestsMemoryName : List Char := "requests.memory".data

/-- setQuantityFromConfig, lines 332-347: an unset key adds nothing; a
well-formed quantity is added.  Line 345 writes into the Requests map for
every resource name, including the two limits names; the Limits map
initialised at line 323 is never written. -/
def setQuantityFromConfig (cfg : Config) (req : ResourceRequirements) (k : List Char) :
    Except GoError ResourceRequirements :=
  match getResourceQuantity cfg (resourceKey k) with
  | Except.error e => Except.error e
  | Except.ok none => Except.ok req
  | Except.ok (some qty) => Except.ok { req with requests := req.requests ++ [(k, qty)] }

/-- getResourceRequest, lines 321-370: the four resource names in order, each
first error returned together with an empty ResourceRequirements value. -/
def getResourceRequest (cfg : Config) : ResourceRequirements × Option GoError :=
  match setQuantityFromConfig cfg { limits := [], requests := [] } limitsCPUName with
  | Except.error e => ({ limits := [], requests := [] }, some e)
  | Except.ok r1 =>
    match setQuantityFromConfig cfg r1 limitsMemoryName with
    | Except.error e => ({ limits := [], requests := [] }, some e)
    | Except.ok r2 =>
      match setQuantityFromConfig cfg r2 requestsCPUName with
      | Except.error e => ({ limits := [], requests := [] }, some e)
      | Except.ok r3 =>
        match setQuantityFromConfig cfg r3 requestsMemoryName with
        | Except.error e => ({ limits := [], requests := [] }, some e)
        | Except.ok r4 => (r4, none)

/-- The character class of podRegExp, line 42: a-zA-Z0-9 and dash, underscore
and dot. -/
def isPodNameSafeChar (c : Char) : Bool :=
  ('a' ≤ c && c ≤ 'z') || ('A' ≤ c && c ≤ 'Z') || ('0' ≤ c && c ≤ '9') ||
  c = '-' || c = '_' || c = '.'

/-- podRegExp.ReplaceAllString(name, dash), line 499: on the pattern each
character outside the class matches individually, so every such character is
replaced by a dash. -/
def podSanitize (name : List Char) : List Char :=
  name.map fun c => if isPodNameSafeChar c then c else '-'

/-- ccintf.CCID: the name and version of a chaincode unit. -/
structure CCID where
  name : List Char
  version : List Char
deriving DecidableEq, Repr

/-- Modelled from the spec: ccid.GetName() (the package ccintf is not among
the given source files); per section 4.1 the workload name is built from the
prefix, the owner id and the descriptor's name, so GetName contributes the
descriptor's name. -/
def ccidGetName (ccid : CCID) : List Char := ccid.name

/-- GetPodName, lines 487-500. -/
def getPodName (peerID : List Char) (ccid : CCID) : List Char :=
  if peerID ≠ [] then podSanitize ("cc-".data ++ peerID ++ "-".data ++ ccidGetName ccid)
  else podSanitize ("cc-".data ++ ccidGetName ccid)

/-- The controller's in-process state: the next fresh channel id, the
ExitHandles registry of lines 48-79 (pod name to channel id, embedded as an
association list), and the channel ids that have been closed. -/
structure KState where
  nextChan : Nat
  handles : List (List Char × Nat)
  closed : List Nat
deriving DecidableEq, Repr

/-- ExitHandles.GetInstance, lines 54-58. -/
def lookupH : List (List Char × Nat) → List Char → Option Nat
  | [], _ => none
  | (k, c) :: rest, n => if k = n then some c else lookupH rest n

/-- ExitHandles.RemoveInstance, lines 68-72. -/
def removeH : List (List Char × Nat) → List Char → List (List Char × Nat)
  | [], _ => []
  | (k, c) :: rest, n => if k = n then removeH rest n else (k, c) :: removeH rest n

/-- ExitHandles.SetInstance, lines 61-65: a map write overwrites. -/
def setH (h : List (List Char × Nat)) (n : List Char) (c : Nat) : List (List Char × Nat) :=
  (n, c) :: removeH h n

/-- The outcome oracle for the external Kubernetes client: what each call
the controller can make would return.  listPods is the pod-name list (or
error) FindPeerCCPods obtains for the label selector, deleteErr the outcome
of deleting the named pod, deleteCMErr of deleting the config map,
createCMErr of creating or updating the config map, createPodErr of creating
the pod. -/
structure Orch where
  listPods : Except GoError (List (List Char))
  deleteErr : List Char → Option GoError
  deleteCMErr : Option GoError
  createCMErr : Option GoError
  createPodErr : Option GoError

/-- The calls the controller issues against the cluster and its registry,
recorded in order. -/
inductive Event
  | deletePod (name : List Char) (graceSeconds : Int)
  | closeChan (name : List Char) (chanId : Nat)
  | deleteConfigMap (name : List Char)
  | createConfigMap (name : List Char)
  | createPod (name : List Char)
  | registerChan (name : List Char) (chanId : Nat)
deriving DecidableEq, Repr

/-- Lines 457-465 for one pod: the delete is issued with grace period zero,
then the wait handle, if registered, is closed and removed (this happens
whether or not the delete failed; the error is only checked afterwards at
line 467). -/
def closeHandleStep (st : KState) (p : List Char) : KState × List Event :=
  match lookupH st.handles p with
  | none => (st, [Event.deletePod p 0])
  | some c =>
    ({ st with handles := removeH st.handles p, closed := c :: st.closed },
     [Event.deletePod p 0, Event.closeChan p c])

/-- The pod loop of stopAllInternal, lines 455-470: pods in order, stopping
with the first delete error. -/
def stopLoop (orch : Orch) : List (List Char) → KState → KState × List Event × Option GoError
  | [], st => (st, [], none)
  | p :: rest, st =>
    let step := closeHandleStep st p
    match orch.deleteErr p with
    | some e => (step.1, step.2, some e)
    | none =>
      let r := stopLoop orch rest step.1
      (r.1, step.2 ++ r.2.1, r.2.2)

/-- stopAllInternal, lines 448-472: list the matching pods (an error aborts),
run the pod loop, and only after the whole loop succeeds delete the config
map, returning that call's result. -/
def stopAllInternal (orch : Orch) (st : KState) (podName : List Char) :
    KState × List Event × Option GoError :=
  match orch.listPods with
  | Except.error e => (st, [], some e)
  | Except.ok pods =>
    let r := stopLoop orch pods st
    match r.2.2 with
    | some e => r
    | none => (r.1, r.2.1 ++ [Event.deleteConfigMap podName], orch.deleteCMErr)

/-- Go strings.SplitN(v, sep, 2) for a one-character separator: split around
the first occurrence, or the whole string when the separator is absent. -/
def splitN2 (s : List Char) (sep : Char) : List (List Char) :=
  if sep ∈ s then [s.takeWhile (fun c => c ≠ sep), (s.dropWhile (fun c => c ≠ sep)).drop 1]
  else [s]

/-- The environment loop of createChaincodePodDeployment, lines 230-235: each
entry is split with SplitN(v, sep, 2) and indexed at positions 0 and 1
without a guard; none stands for the index-out-of-range panic on an entry
with no separator (the split yields a single element and ss[1] is out of
range). -/
def envSplit : List (List Char) → Option (List (List Char × List Char))
  | [] => some []
  | v :: rest =>
    match splitN2 v '=' with
    | [nm, val] => (envSplit rest).map fun tl => (nm, val) :: tl
    | _ => none

/-- createChaincodePodDeployment, lines 219-304, as far as its externally
visible effects and result go: package the file bundle and create or update
the files config map (an error aborts), split the environment entries (an
entry without a separator panics), build the resource request from
configuration (an error aborts), then create the pod and return the client's
result.  none stands for a run that never returns: the packaging loop not
exiting within the fuel, or the environment split panicking. -/
def createDeployment (cfg : Config) (orch : Orch) (podName : List Char)
    (env : List (List Char)) (files : Bundle) (fuel : Nat) :
    Option (List Event × Option GoError) :=
  match extractCommonRoot fuel files with
  | none => none
  | some _ =>
    match orch.createCMErr with
    | some e => some ([Event.createConfigMap podName], some e)
    | none =>
      match envSplit env with
      | none => none
      | some _ =>
        match (getResourceRequest cfg).2 with
        | some e => some ([Event.createConfigMap podName], some e)
        | none => some ([Event.createConfigMap podName, Event.createPod podName], orch.createPodErr)

/-- Start, lines 159-182: tear down any existing deployment for the derived
name, ignoring the teardown's result (line 165), then create the chaincode
pod deployment; on a create error return it; only on success allocate a
fresh channel and register it under the derived name (lines 177-178).  none
stands for a run that never returns (see createDeployment). -/
def startCC (cfg : Config) (orch : Orch) (st : KState) (peerID : List Char) (ccid : CCID)
    (env : List (List Char)) (files : Bundle) (fuel : Nat) :
    Option (KState × List Event × Option GoError) :=
  let podName := getPodName peerID ccid
  let td := stopAllInternal orch st podName
  match createDeployment cfg orch podName env files fuel with
  | none => none
  | some (evs2, some e) => some (td.1, td.2.1 ++ evs2, some e)
  | some (evs2, none) =>
    let st1 := td.1
    let c := st1.nextChan
    some ({ nextChan := c + 1, handles := setH st1.handles podName c, closed := st1.closed },
          td.2.1 ++ evs2 ++ [Event.registerChan podName c], none)

/-- Stop, lines 185-193: the teardown runs exactly when dontremove is false
(the condition at line 188 tests dontremove twice); timeout and dontkill are
never read. -/
def stopCC (orch : Orch) (st : KState) (peerID : List Char) (ccid : CCID)
    (timeout : Nat) (dontkill dontremove : Bool) :
    KState × List Event × Option GoError :=
  if !dontremove && !dontremove then stopAllInternal orch st (getPodName peerID ccid)
  else (st, [], none)

/-- How a Wait call returns: immediately with an exit code and error, or
after blocking on the named channel until it is closed or receives a value. -/
inductive WaitOutcome
  | immediate (exitCode : Int) (err : Option GoError)
  | blockThenReturn (chanId : Nat) (exitCode : Int) (err : Option GoError)
deriving DecidableEq, Repr

/-- Wait, lines 196-211: look up the exit channel under the derived pod
name; absent means an immediate not-found error with exit code 0; present
means the call blocks receiving on that channel and, once it is closed or a
value arrives, returns exit code 0 and no error. -/
def waitCC (st : KState) (peerID : List Char) (ccid : CCID) : WaitOutcome :=
  match lookupH st.handles (getPodName peerID ccid) with
  | none => WaitOutcome.immediate 0 (some (GoError.notFound (getPodName peerID ccid)))
  | some c => WaitOutcome.blockThenReturn c 0 none

/-- The events of the teardown phase: pod deletes, handle closes, config map
deletes. -/
def isTeardownEvent : Event → Bool
  | Event.deletePod _ _ => true
  | Event.closeChan _ _ => true
  | Event.deleteConfigMap _ => true
  | _ => false

example :
    extractCommonRoot 4
      [("/root/sub/one".data, 1), ("/root/sub/two".data, 2), ("/root/sub/three".data, 3)] =
      some ("/root/sub/".data, [("one".data, 1), ("two".data, 2), ("three".data, 3)]) := by
  decide

example : extractCommonRoot 9 [] = some ([], []) := rfl

theorem le_lastIndexC (c : Char) : ∀ (s : List Char) (i : Nat), s[i]? = some c → (i : Int) ≤ lastIndexC s c := by
  intro s
  induction s with
  | nil => intro i h; simp at h
  | cons a rest ih =>
    intro i h
    cases i with
    | zero =>
      simp at h
      subst h
      simp only [lastIndexC]
      split
      · rename_i hr; omega
      · simp
    | succ j =>
      have hj := ih j (by simpa using h)
      simp only [lastIndexC]
      split
      · omega
      · omega

theorem lastIndexC_lt_length (s : List Char) (c : Char) : lastIndexC s c < s.length := by
  induction s with
  | nil => simp [lastIndexC]
  | cons a rest ih =>
    simp only [lastIndexC, List.length_cons]
    split
    · push_cast; omega
    · split <;> push_cast <;> omega

theorem getElem?_lastIndexC (s : List Char) (c : Char) (h : 0 ≤ lastIndexC s c) :
    s[(lastIndexC s c).toNat]? = some c := by
  induction s with
  | nil => simp [lastIndexC] at h
  | cons a rest ih =>
    by_cases hr : 0 ≤ lastIndexC rest c
    · have := ih hr
      simp only [lastIndexC, if_pos hr]
      have ht : (lastIndexC rest c + 1).toNat = (lastIndexC rest c).toNat + 1 := by omega
      rw [ht]
      simpa using this
    · simp only [lastIndexC, if_neg hr] at h ⊢
      by_cases hac : a = c
      · simp [hac]
      · simp [hac] at h

theorem stripFirst_eq_drop (old s : List Char) (h : old.isPrefixOf s = true) :
    stripFirst old s = s.drop old.length := by
  cases old with
  | nil => rfl
  | cons a as =>
    cases s with
    | nil => simp [List.isPrefixOf] at h
    | cons c cs => simp [stripFirst, stripFirstAux, h]

theorem trimToLastSep_prefix (k0 : List Char) : trimToLastSep k0 <+: k0 :=
  List.take_prefix _ _

theorem trimToLastSep_getLast (k0 : List Char) (h : 0 < lastIndexC k0 '/') :
    (trimToLastSep k0).getLast? = some '/' := by
  have hlt := lastIndexC_lt_length k0 '/'
  have hlen : (trimToLastSep k0).length = (lastIndexC k0 '/').toNat + 1 := by
    rw [trimToLastSep, List.length_take]
    omega
  rw [List.getLast?_eq_getElem?, hlen]
  rw [trimToLastSep, List.getElem?_take]
  rw [if_pos (by omega)]
  exact getElem?_lastIndexC k0 '/' (by omega)

theorem prefix_trimToLastSep (k0 p : List Char) (hp : p.getLast? = some '/')
    (hpre : p <+: k0) : p <+: trimToLastSep k0 := by
  have hne : p ≠ [] := by
    intro h
    rw [h] at hp
    simp at hp
  have hpos : 0 < p.length := List.length_pos.mpr hne
  have hi : p[p.length - 1]? = some '/' := by
    rw [← List.getLast?_eq_getElem?]
    exact hp
  have hk : k0[p.length - 1]? = some '/' := by
    obtain ⟨t, hts⟩ := hpre
    rw [← hts, List.getElem?_append, if_pos (by omega)]
    exact hi
  have hle : (p.length - 1 : Int) ≤ lastIndexC k0 '/' := by
    have := le_lastIndexC '/' k0 (p.length - 1) hk
    omega
  have hlen : p.length ≤ (lastIndexC k0 '/').toNat + 1 := by omega
  rw [trimToLastSep]
  exact List.prefix_take_iff.mpr (And.intro hpre hlen)

theorem findRootLoop_found (keys : List (List Char)) (fuel : Nat) (rootPath : List Char) :
    findRootLoop keys fuel true rootPath = some rootPath := by
  cases fuel <;> simp [findRootLoop]

theorem findRootLoop_step_found (keys : List (List Char)) (fuel : Nat) (rootPath : List Char)
    (h0 : 0 < lastIndexC rootPath '/')
    (hall : allHavePrefix keys (trimToLastSep rootPath) = true) :
    findRootLoop keys (fuel + 1) false rootPath = some (trimToLastSep rootPath) := by
  have h := findRootLoop_found keys fuel (trimToLastSep rootPath)
  rw [← hall] at h
  rw [findRootLoop, if_pos (And.intro rfl h0)]
  exact h

theorem extractCommonRoot_cons (fuel : Nat) (k0 : List Char) (v0 : Nat) (rest : Bundle)
    (hsep : ¬ lastIndexC k0 '/' < 0) :
    extractCommonRoot fuel ((k0, v0) :: rest) =
      match findRootLoop (((k0, v0) :: rest).map Prod.fst) fuel false k0 with
      | none => none
      | some rootPath =>
        some (rootPath, ((k0, v0) :: rest).map fun kv => (stripFirst rootPath kv.1, kv.2)) := by
  have hd : (decide (lastIndexC k0 '/' < 0)) = false := decide_eq_false hsep
  simp only [extractCommonRoot, hd, Bool.false_eq_true, if_false]

theorem findRootLoop_no_common_root_stuck (n : Nat) :
    findRootLoop ["/a/x".data, "/b/y".data] n false "/a/".data = none := by
  induction n with
  | zero => decide
  | succ n ih => exact ih

/-- C1: the claim states that extractCommonRoot terminates on every
FileBundle, and that keys sharing no common directory component resolve to
an empty mount point with all keys passed through unchanged.  On the bundle
with keys /a/x and /b/y, which share no directory component, the while loop
of lines 427-436 never exits, whatever the fuel: once the candidate root ends
in the separator, trimming back to the last separator (line 428) returns the
candidate unchanged, so the loop repeats the same state forever and no
result is ever returned. -/
theorem extractCommonRoot_no_common_root_diverges (fuel : Nat) :
    extractCommonRoot fuel [("/a/x".data, 1), ("/b/y".data, 2)] = none := by
  cases fuel with
  | zero => decide
  | succ n =>
    have h : findRootLoop ["/a/x".data, "/b/y".data] (n + 1) false "/a/x".data = none :=
      findRootLoop_no_common_root_stuck n
    show (match findRootLoop ["/a/x".data, "/b/y".data] (n + 1) false "/a/x".data with
          | none => none
          | some rootPath =>
            some (rootPath, ([("/a/x".data, 1), ("/b/y".data, 2)] : Bundle).map
              fun kv => (stripFirst rootPath kv.1, kv.2))) = none
    rw [h]

/-- C2 counterexample: the keys /a/b/y and /a/b//a/b/x share the directory
prefix /a/b/ (shown by the second and third conjuncts) and extractCommonRoot
returns exactly that mount point, yet the second output key, obtained by
stripping the first occurrence of the prefix, still starts with the prefix
(fourth conjunct), contradicting the claim that no output key starts with
the prefix. -/
theorem extractCommonRoot_output_key_keeps_prefix :
    extractCommonRoot 4 [("/a/b/y".data, 1), ("/a/b//a/b/x".data, 2)] =
      some ("/a/b/".data, [("y".data, 1), ("/a/b/x".data, 2)]) ∧
    "/a/b/".data.isPrefixOf "/a/b/y".data = true ∧
    "/a/b/".data.isPrefixOf "/a/b//a/b/x".data = true ∧
    "/a/b/".data.isPrefixOf "/a/b/x".data = true := by decide

/-- C2 (amended): for a non-empty FileBundle all of whose keys extend the
first key's directory prefix (the first key up to and including its last
separator, that separator not at position 0), extractCommonRoot needs a
single loop iteration and returns that prefix as the mount point together
with the bundle in which every key has its first occurrence of the prefix
stripped (equivalently, the prefix-length head dropped); the mount point
ends in the separator, is a common prefix of all keys, and every
separator-terminated common prefix of the keys is a prefix of it, so it is
the longest common directory prefix. -/
theorem extractCommonRoot_extracts_common_root (k0 : List Char) (v0 : Nat) (rest : Bundle)
    (fuel : Nat) (hfuel : 1 ≤ fuel) (hsep : 0 < lastIndexC k0 '/')
    (hall : ∀ kv ∈ ((k0, v0) :: rest : Bundle), (trimToLastSep k0).isPrefixOf kv.1 = true) :
    extractCommonRoot fuel ((k0, v0) :: rest) =
      some (trimToLastSep k0,
        ((k0, v0) :: rest).map fun kv => (kv.1.drop (trimToLastSep k0).length, kv.2)) ∧
    (trimToLastSep k0).getLast? = some '/' ∧
    (∀ kv ∈ ((k0, v0) :: rest : Bundle), trimToLastSep k0 <+: kv.1) ∧
    (∀ p : List Char, p.getLast? = some '/' →
      (∀ kv ∈ ((k0, v0) :: rest : Bundle), p <+: kv.1) → p <+: trimToLastSep k0) := by
  obtain ⟨n, rfl⟩ : ∃ n, fuel = n + 1 := ⟨fuel - 1, by omega⟩
  have hpre : ∀ kv ∈ ((k0, v0) :: rest : Bundle), trimToLastSep k0 <+: kv.1 := by
    intro kv hkv
    exact List.isPrefixOf_iff_prefix.mp (hall kv hkv)
  refine ⟨?_, trimToLastSep_getLast k0 hsep, hpre, ?_⟩
  · have hloop : findRootLoop (((k0, v0) :: rest : Bundle).map Prod.fst) (n + 1) false k0 =
        some (trimToLastSep k0) := by
      apply findRootLoop_step_found _ _ _ hsep
      rw [allHavePrefix, List.all_eq_true]
      intro k hk
      obtain ⟨kv, hkv, hkeq⟩ := List.mem_map.mp hk
      exact hkeq ▸ hall kv hkv
    have heq : extractCommonRoot (n + 1) ((k0, v0) :: rest) =
        some (trimToLastSep k0,
          ((k0, v0) :: rest).map fun kv => (stripFirst (trimToLastSep k0) kv.1, kv.2)) := by
      rw [extractCommonRoot_cons _ _ _ _ (by omega), hloop]
    have hmap : (((k0, v0) :: rest : Bundle).map
          fun kv => (stripFirst (trimToLastSep k0) kv.1, kv.2)) =
        ((k0, v0) :: rest).map fun kv => (kv.1.drop (trimToLastSep k0).length, kv.2) := by
      apply List.map_congr_left
      intro kv hkv
      rw [stripFirst_eq_drop _ _ (hall kv hkv)]
    rw [heq, hmap]
  · intro p hp hcomm
    exact prefix_trimToLastSep k0 p hp (hcomm (k0, v0) (by simp))

/-- C2 witness: the specification's example bundle with keys /root/sub/one,
/root/sub/two and /root/sub/three gives mount point /root/sub/ and relative
keys one, two, three. -/
theorem extractCommonRoot_extracts_common_root_witness :
    extractCommonRoot 4
      [("/root/sub/one".data, 1), ("/root/sub/two".data, 2), ("/root/sub/three".data, 3)] =
      some ("/root/sub/".data, [("one".data, 1), ("two".data, 2), ("three".data, 3)]) := by
  have h := extractCommonRoot_extracts_common_root "/root/sub/one".data 1
    [("/root/sub/two".data, 2), ("/root/sub/three".data, 3)] 4 (by norm_num) (by decide)
    (by decide)
  exact h.1.trans (by decide)

/-- C3: the claim states that each configured limits quantity produces an
entry in the limits mapping.  With only vm.kubernetes.container.limits.cpu
set, to 500m, getResourceRequest returns a ResourceRequirements whose Limits
map is empty and whose Requests map holds the limits.cpu entry: line 345
writes every configured quantity into Requests, and the Limits map
initialised at line 323 is never written. -/
theorem getResourceRequest_limits_written_to_requests :
    getResourceRequest
        (fun key => if key = "vm.kubernetes.container.limits.cpu".data then "500m".data else []) =
      ({ limits := [], requests := [(limitsCPUName, Quantity.mk "500m".data)] }, none) := by
  decide

/-- C4 counterexample: a configuration with a malformed limits cpu value and
a configuration with the same malformed value under the requests memory key
make getResourceRequest return identical errors, the quantity parse error of
the value alone; the returned error therefore does not name, and cannot
determine, the offending configuration key. -/
theorem getResourceRequest_error_does_not_name_key :
    (getResourceRequest
        (fun key => if key = "vm.kubernetes.container.limits.cpu".data
          then "bogus".data else [])).2 =
      (getResourceRequest
        (fun key => if key = "vm.kubernetes.container.requests.memory".data
          then "bogus".data else [])).2 ∧
    (getResourceRequest
        (fun key => if key = "vm.kubernetes.container.limits.cpu".data
          then "bogus".data else [])).2 =
      some (GoError.quantityParse "bogus".data) := by
  decide

theorem setQuantityFromConfig_bad (cfg : Config) (req : ResourceRequirements) (k : List Char)
    (hset : cfg (resourceKey k) ≠ [])
    (hbad : quantityWellFormed (cfg (resourceKey k)) = false) :
    setQuantityFromConfig cfg req k =
      Except.error (GoError.quantityParse (cfg (resourceKey k))) := by
  have h1 : getResourceQuantity cfg (resourceKey k) =
      Except.error (GoError.quantityParse (cfg (resourceKey k))) := by
    rw [getResourceQuantity, if_neg hset, if_neg]
    rw [hbad]
    exact Bool.false_ne_true
  rw [setQuantityFromConfig, h1]

theorem setQuantityFromConfig_ok (cfg : Config) (req : ResourceRequirements) (k : List Char)
    (h : cfg (resourceKey k) = [] ∨ quantityWellFormed (cfg (resourceKey k)) = true) :
    ∃ req2, setQuantityFromConfig cfg req k = Except.ok req2 := by
  rcases h with h | h
  · refine ⟨req, ?_⟩
    rw [setQuantityFromConfig, getResourceQuantity, if_pos h]
  · by_cases hset : cfg (resourceKey k) = []
    · refine ⟨req, ?_⟩
      rw [setQuantityFromConfig, getResourceQuantity, if_pos hset]
    · refine ⟨{ limits := req.limits,
                requests := req.requests ++ [(k, Quantity.mk (cfg (resourceKey k)))] }, ?_⟩
      rw [setQuantityFromConfig, getResourceQuantity, if_neg hset, if_pos h]

/-- C4 (amended): for every configuration in which one of the four
resource-quantity strings is present but malformed, getResourceRequest
aborts at the first parse failure in the build's fixed order (limits cpu,
limits memory, requests cpu, requests memory): each conjunct covers one key
being the first malformed one (the earlier keys unset or well-formed) and
states that the build returns the quantity parse error carrying that key's
malformed value (not the configuration key) together with the empty
ResourceRequirements, whatever the later keys hold; no partially constructed
ResourceRequirements is surfaced. -/
theorem getResourceRequest_first_failure_aborts (cfg : Config) :
    ((cfg (resourceKey limitsCPUName) ≠ [] ∧
        quantityWellFormed (cfg (resourceKey limitsCPUName)) = false) →
      getResourceRequest cfg = ({ limits := [], requests := [] },
        some (GoError.quantityParse (cfg (resourceKey limitsCPUName))))) ∧
    ((cfg (resourceKey limitsCPUName) = [] ∨
        quantityWellFormed (cfg (resourceKey limitsCPUName)) = true) →
      (cfg (resourceKey limitsMemoryName) ≠ [] ∧
        quantityWellFormed (cfg (resourceKey limitsMemoryName)) = false) →
      getResourceRequest cfg = ({ limits := [], requests := [] },
        some (GoError.quantityParse (cfg (resourceKey limitsMemoryName))))) ∧
    ((cfg (resourceKey limitsCPUName) = [] ∨
        quantityWellFormed (cfg (resourceKey limitsCPUName)) = true) →
      (cfg (resourceKey limitsMemoryName) = [] ∨
        quantityWellFormed (cfg (resourceKey limitsMemoryName)) = true) →
      (cfg (resourceKey requestsCPUName) ≠ [] ∧
        quantityWellFormed (cfg (resourceKey requestsCPUName)) = false) →
      getResourceRequest cfg = ({ limits := [], requests := [] },
        some (GoError.quantityParse (cfg (resourceKey requestsCPUName))))) ∧
    ((cfg (resourceKey limitsCPUName) = [] ∨
        quantityWellFormed (cfg (resourceKey limitsCPUName)) = true) →
      (cfg (resourceKey limitsMemoryName) = [] ∨
        quantityWellFormed (cfg (resourceKey limitsMemoryName)) = true) →
      (cfg (resourceKey requestsCPUName) = [] ∨
        quantityWellFormed (cfg (resourceKey requestsCPUName)) = true) →
      (cfg (resourceKey requestsMemoryName) ≠ [] ∧
        quantityWellFormed (cfg (resourceKey requestsMemoryName)) = false) →
      getResourceRequest cfg = ({ limits := [], requests := [] },
        some (GoError.quantityParse (cfg (resourceKey requestsMemoryName))))) := by
  refine ⟨?_, ?_, ?_, ?_⟩
  · rintro ⟨hset, hbad⟩
    simp only [getResourceRequest,
      setQuantityFromConfig_bad cfg { limits := [], requests := [] } limitsCPUName hset hbad]
  · rintro h1 ⟨hset, hbad⟩
    obtain ⟨r1, hr1⟩ :=
      setQuantityFromConfig_ok cfg { limits := [], requests := [] } limitsCPUName h1
    simp only [getResourceRequest, hr1,
      setQuantityFromConfig_bad cfg r1 limitsMemoryName hset hbad]
  · rintro h1 h2 ⟨hset, hbad⟩
    obtain ⟨r1, hr1⟩ :=
      setQuantityFromConfig_ok cfg { limits := [], requests := [] } limitsCPUName h1
    obtain ⟨r2, hr2⟩ := setQuantityFromConfig_ok cfg r1 limitsMemoryName h2
    simp only [getResourceRequest, hr1, hr2,
      setQuantityFromConfig_bad cfg r2 requestsCPUName hset hbad]
  · rintro h1 h2 h3 ⟨hset, hbad⟩
    obtain ⟨r1, hr1⟩ :=
      setQuantityFromConfig_ok cfg { limits := [], requests := [] } limitsCPUName h1
    obtain ⟨r2, hr2⟩ := setQuantityFromConfig_ok cfg r1 limitsMemoryName h2
    obtain ⟨r3, hr3⟩ := setQuantityFromConfig_ok cfg r2 requestsCPUName h3
    simp only [getResourceRequest, hr1, hr2, hr3,
      setQuantityFromConfig_bad cfg r3 requestsMemoryName hset hbad]

/-- C4 witness: in one configuration limits cpu holds the malformed value
bogus while requests memory is also malformed, and the first failure wins;
in a second configuration only requests memory is malformed, and its parse
error is returned after the three earlier keys pass; both return the empty
spec with the parse error of the offending value. -/
theorem getResourceRequest_first_failure_aborts_witness :
    getResourceRequest (fun key =>
      if key = "vm.kubernetes.container.limits.cpu".data then "bogus".data
      else if key = "vm.kubernetes.container.requests.memory".data then "junk!".data else []) =
      ({ limits := [], requests := [] }, some (GoError.quantityParse "bogus".data)) ∧
    getResourceRequest (fun key =>
      if key = "vm.kubernetes.container.requests.memory".data then "junk!".data else []) =
      ({ limits := [], requests := [] }, some (GoError.quantityParse "junk!".data)) := by
  constructor
  · have h := (getResourceRequest_first_failure_aborts (fun key =>
      if key = "vm.kubernetes.container.limits.cpu".data then "bogus".data
      else if key = "vm.kubernetes.container.requests.memory".data then "junk!".data
      else [])).1 ⟨by decide, by decide⟩
    exact h.trans (by decide)
  · have h := (getResourceRequest_first_failure_aborts (fun key =>
      if key = "vm.kubernetes.container.requests.memory".data then "junk!".data
      else [])).2.2.2 (by decide) (by decide) (by decide) ⟨by decide, by decide⟩
    exact h.trans (by decide)

theorem lookupH_removeH_self (h : List (List Char × Nat)) (n : List Char) :
    lookupH (removeH h n) n = none := by
  induction h with
  | nil => rfl
  | cons kv rest ih =>
    obtain ⟨k, c⟩ := kv
    rw [removeH]
    by_cases hk : k = n
    · rw [if_pos hk]; exact ih
    · rw [if_neg hk, lookupH, if_neg hk]; exact ih

theorem lookupH_removeH_ne (h : List (List Char × Nat)) (n m : List Char) (hne : m ≠ n) :
    lookupH (removeH h n) m = lookupH h m := by
  induction h with
  | nil => rfl
  | cons kv rest ih =>
    obtain ⟨k, c⟩ := kv
    rw [removeH, lookupH]
    by_cases hk : k = n
    · rw [if_pos hk, if_neg (by rw [hk]; exact fun hh => hne hh.symm), ih]
    · rw [if_neg hk, lookupH, ih]

theorem closeHandleStep_handles_self (st : KState) (p : List Char) :
    lookupH (closeHandleStep st p).1.handles p = none := by
  rw [closeHandleStep]
  cases h : lookupH st.handles p with
  | none => exact h
  | some c => exact lookupH_removeH_self st.handles p

theorem closeHandleStep_handles_ne (st : KState) (p q : List Char) (hne : q ≠ p) :
    lookupH (closeHandleStep st p).1.handles q = lookupH st.handles q := by
  rw [closeHandleStep]
  cases h : lookupH st.handles p with
  | none => rfl
  | some c => exact lookupH_removeH_ne st.handles p q hne

theorem closeHandleStep_closed_mono (st : KState) (p : List Char) (c : Nat)
    (h : c ∈ st.closed) : c ∈ (closeHandleStep st p).1.closed := by
  rw [closeHandleStep]
  cases hl : lookupH st.handles p with
  | none => exact h
  | some d => exact List.mem_cons_of_mem d h

theorem closeHandleStep_closed_self (st : KState) (p : List Char) (c : Nat)
    (h : lookupH st.handles p = some c) : c ∈ (closeHandleStep st p).1.closed := by
  rw [closeHandleStep, h]
  exact List.mem_cons_self c st.closed

theorem closeHandleStep_events (st : KState) (p : List Char) :
    ∀ e ∈ (closeHandleStep st p).2,
      e = Event.deletePod p 0 ∨ ∃ c, e = Event.closeChan p c := by
  intro e he
  rw [closeHandleStep] at he
  cases hl : lookupH st.handles p with
  | none =>
    rw [hl] at he
    simp only [List.mem_singleton] at he
    exact Or.inl he
  | some c =>
    rw [hl] at he
    simp only [List.mem_cons, List.mem_singleton] at he
    rcases he with h1 | h1 | h1
    · exact Or.inl h1
    · exact Or.inr ⟨c, h1⟩
    · cases h1

theorem stopLoop_cons_err (orch : Orch) (p : List Char) (rest : List (List Char)) (st : KState)
    (e : GoError) (h : orch.deleteErr p = some e) :
    stopLoop orch (p :: rest) st = ((closeHandleStep st p).1, (closeHandleStep st p).2, some e) := by
  rw [stopLoop, h]

theorem stopLoop_cons_ok (orch : Orch) (p : List Char) (rest : List (List Char)) (st : KState)
    (h : orch.deleteErr p = none) :
    stopLoop orch (p :: rest) st =
      ((stopLoop orch rest (closeHandleStep st p).1).1,
       (closeHandleStep st p).2 ++ (stopLoop orch rest (closeHandleStep st p).1).2.1,
       (stopLoop orch rest (closeHandleStep st p).1).2.2) := by
  rw [stopLoop, h]

theorem stopLoop_events (orch : Orch) (pods : List (List Char)) (st : KState) :
    ∀ e ∈ (stopLoop orch pods st).2.1,
      (∃ p, p ∈ pods ∧ e = Event.deletePod p 0) ∨
      (∃ p c, p ∈ pods ∧ e = Event.closeChan p c) := by
  induction pods generalizing st with
  | nil => intro e he; rw [stopLoop] at he; cases he
  | cons p rest ih =>
    intro e he
    cases hd : orch.deleteErr p with
    | some err =>
      rw [stopLoop_cons_err orch p rest st err hd] at he
      rcases closeHandleStep_events st p e he with h1 | ⟨c, h1⟩
      · exact Or.inl ⟨p, List.mem_cons_self p rest, h1⟩
      · exact Or.inr ⟨p, c, List.mem_cons_self p rest, h1⟩
    | none =>
      rw [stopLoop_cons_ok orch p rest st hd] at he
      rcases List.mem_append.mp he with h1 | h1
      · rcases closeHandleStep_events st p e h1 with h2 | ⟨c, h2⟩
        · exact Or.inl ⟨p, List.mem_cons_self p rest, h2⟩
        · exact Or.inr ⟨p, c, List.mem_cons_self p rest, h2⟩
      · rcases ih (closeHandleStep st p).1 e h1 with ⟨q, hq, h2⟩ | ⟨q, c, hq, h2⟩
        · exact Or.inl ⟨q, List.mem_cons_of_mem p hq, h2⟩
        · exact Or.inr ⟨q, c, List.mem_cons_of_mem p hq, h2⟩

theorem stopLoop_handles_none (orch : Orch) (pods : List (List Char)) (st : KState)
    (q : List Char) (h : lookupH st.handles q = none) :
    lookupH (stopLoop orch pods st).1.handles q = none := by
  induction pods generalizing st with
  | nil => rw [stopLoop]; exact h
  | cons p rest ih =>
    have hstep : lookupH (closeHandleStep st p).1.handles q = none := by
      by_cases hq : q = p
      · rw [hq]; exact closeHandleStep_handles_self st p
      · rw [closeHandleStep_handles_ne st p q hq]; exact h
    cases hd : orch.deleteErr p with
    | some err => rw [stopLoop_cons_err orch p rest st err hd]; exact hstep
    | none => rw [stopLoop_cons_ok orch p rest st hd]; exact ih _ hstep

theorem stopLoop_closed_mono (orch : Orch) (pods : List (List Char)) (st : KState)
    (c : Nat) (h : c ∈ st.closed) : c ∈ (stopLoop orch pods st).1.closed := by
  induction pods generalizing st with
  | nil => rw [stopLoop]; exact h
  | cons p rest ih =>
    have hstep := closeHandleStep_closed_mono st p c h
    cases hd : orch.deleteErr p with
    | some err => rw [stopLoop_cons_err orch p rest st err hd]; exact hstep
    | none => rw [stopLoop_cons_ok orch p rest st hd]; exact ih _ hstep

theorem stopLoop_ok (orch : Orch) (pods : List (List Char)) (st : KState)
    (h : ∀ p ∈ pods, orch.deleteErr p = none) :
    (stopLoop orch pods st).2.2 = none ∧
    (∀ p ∈ pods, Event.deletePod p 0 ∈ (stopLoop orch pods st).2.1) ∧
    (∀ p ∈ pods, lookupH (stopLoop orch pods st).1.handles p = none) ∧
    (∀ p c, p ∈ pods → lookupH st.handles p = some c →
      c ∈ (stopLoop orch pods st).1.closed) := by
  induction pods generalizing st with
  | nil =>
    refine ⟨rfl, ?_, ?_, ?_⟩
    · intro p hp; cases hp
    · intro p hp; cases hp
    · intro p c hp; cases hp
  | cons p rest ih =>
    have hd : orch.deleteErr p = none := h p (List.mem_cons_self p rest)
    have hrest : ∀ q ∈ rest, orch.deleteErr q = none :=
      fun q hq => h q (List.mem_cons_of_mem p hq)
    have ihs := ih (closeHandleStep st p).1 hrest
    rw [stopLoop_cons_ok orch p rest st hd]
    refine ⟨ihs.1, ?_, ?_, ?_⟩
    · intro q hq
      rcases List.mem_cons.mp hq with h1 | h1
      · subst h1
        apply List.mem_append.mpr
        left
        rw [closeHandleStep]
        cases hl : lookupH st.handles q with
        | none => exact List.mem_singleton.mpr rfl
        | some c => exact List.mem_cons_self _ _
      · exact List.mem_append.mpr (Or.inr (ihs.2.1 q h1))
    · intro q hq
      rcases List.mem_cons.mp hq with h1 | h1
      · subst h1
        exact stopLoop_handles_none orch rest _ q (closeHandleStep_handles_self st q)
      · exact ihs.2.2.1 q h1
    · intro q c hq hc
      rcases List.mem_cons.mp hq with h1 | h1
      · subst h1
        exact stopLoop_closed_mono orch rest _ c (closeHandleStep_closed_self st q c hc)
      · by_cases hqp : q = p
        · subst hqp
          exact stopLoop_closed_mono orch rest _ c (closeHandleStep_closed_self st q c hc)
        · apply ihs.2.2.2 q c h1
          rw [closeHandleStep_handles_ne st p q hqp]
          exact hc

theorem stopLoop_eager (orch : Orch) (l1 : List (List Char)) (p : List Char)
    (l2 : List (List Char)) (st : KState) (e : GoError)
    (h1 : ∀ q ∈ l1, orch.deleteErr q = none) (hp : orch.deleteErr p = some e) :
    (stopLoop orch (l1 ++ p :: l2) st).2.2 = some e ∧
    (∀ q g, Event.deletePod q g ∈ (stopLoop orch (l1 ++ p :: l2) st).2.1 →
      q ∈ l1 ∨ q = p) := by
  induction l1 generalizing st with
  | nil =>
    rw [List.nil_append, stopLoop_cons_err orch p l2 st e hp]
    refine ⟨rfl, ?_⟩
    intro q g hq
    rcases closeHandleStep_events st p _ hq with h2 | ⟨c, h2⟩
    · cases h2; exact Or.inr rfl
    · cases h2
  | cons q0 l1 ih =>
    have hd : orch.deleteErr q0 = none := h1 q0 (List.mem_cons_self q0 l1)
    have hl1 : ∀ q ∈ l1, orch.deleteErr q = none :=
      fun q hq => h1 q (List.mem_cons_of_mem q0 hq)
    have ihs := ih (closeHandleStep st q0).1 hl1
    rw [List.cons_append, stopLoop_cons_ok orch q0 (l1 ++ p :: l2) st hd]
    refine ⟨ihs.1, ?_⟩
    intro q g hq
    rcases List.mem_append.mp hq with h2 | h2
    · rcases closeHandleStep_events st q0 _ h2 with h3 | ⟨c, h3⟩
      · cases h3; exact Or.inl (List.mem_cons_self q0 l1)
      · cases h3
    · rcases ihs.2 q g h2 with h3 | h3
      · exact Or.inl (List.mem_cons_of_mem q0 h3)
      · exact Or.inr h3

theorem stopAllInternal_ok_eq (orch : Orch) (st : KState) (nm : List Char)
    (pods : List (List Char)) (hl : orch.listPods = Except.ok pods) :
    stopAllInternal orch st nm =
      match (stopLoop orch pods st).2.2 with
      | some _ => stopLoop orch pods st
      | none => ((stopLoop orch pods st).1,
          (stopLoop orch pods st).2.1 ++ [Event.deleteConfigMap nm], orch.deleteCMErr) := by
  rw [stopAllInternal, hl]

theorem stopAllInternal_loop_ok_eq (orch : Orch) (st : KState) (nm : List Char)
    (pods : List (List Char)) (hl : orch.listPods = Except.ok pods)
    (hres : (stopLoop orch pods st).2.2 = none) :
    stopAllInternal orch st nm = ((stopLoop orch pods st).1,
      (stopLoop orch pods st).2.1 ++ [Event.deleteConfigMap nm], orch.deleteCMErr) := by
  rw [stopAllInternal_ok_eq orch st nm pods hl, hres]

theorem stopAllInternal_loop_err_eq (orch : Orch) (st : KState) (nm : List Char)
    (pods : List (List Char)) (e : GoError) (hl : orch.listPods = Except.ok pods)
    (hres : (stopLoop orch pods st).2.2 = some e) :
    stopAllInternal orch st nm = stopLoop orch pods st := by
  rw [stopAllInternal_ok_eq orch st nm pods hl, hres]

theorem stopLoop_no_configmap (orch : Orch) (pods : List (List Char)) (st : KState) :
    ∀ m, Event.deleteConfigMap m ∉ (stopLoop orch pods st).2.1 := by
  intro m hmem
  rcases stopLoop_events orch pods st _ hmem with ⟨q, _, h2⟩ | ⟨q, c, _, h2⟩ <;> cases h2

/-- C5: for a Stop teardown pass (stopAllInternal) whose label query obtains
the matching pod list: every pod delete is issued with grace period zero;
when every delete succeeds, each matching pod is deleted, a wait signal
registered under a matching pod's name is closed (its channel recorded
closed) and removed from the registry, the mounted-bundle config map is
removed last (it is the final event of the call), and the config map call's
result is returned; and the reference eager-fail behaviour holds: at the
first delete error that error is returned, no pod beyond the failing one is
deleted, and the config map is never removed. -/
theorem stopAllInternal_spec (orch : Orch) (st : KState) (nm : List Char)
    (pods : List (List Char)) (hl : orch.listPods = Except.ok pods) :
    (∀ p g, Event.deletePod p g ∈ (stopAllInternal orch st nm).2.1 → g = 0) ∧
    ((∀ p ∈ pods, orch.deleteErr p = none) →
      (∀ p ∈ pods, Event.deletePod p 0 ∈ (stopAllInternal orch st nm).2.1) ∧
      (∀ p ∈ pods, lookupH (stopAllInternal orch st nm).1.handles p = none) ∧
      (∀ p c, p ∈ pods → lookupH st.handles p = some c →
        c ∈ (stopAllInternal orch st nm).1.closed) ∧
      (stopAllInternal orch st nm).2.1.getLast? = some (Event.deleteConfigMap nm) ∧
      (stopAllInternal orch st nm).2.2 = orch.deleteCMErr) ∧
    (∀ (l1 : List (List Char)) (p : List Char) (l2 : List (List Char)) (e : GoError),
      pods = l1 ++ p :: l2 → (∀ q ∈ l1, orch.deleteErr q = none) →
      orch.deleteErr p = some e →
      (stopAllInternal orch st nm).2.2 = some e ∧
      (∀ q, q ∉ l1 → q ≠ p → ∀ g, Event.deletePod q g ∉ (stopAllInternal orch st nm).2.1) ∧
      (∀ m, Event.deleteConfigMap m ∉ (stopAllInternal orch st nm).2.1)) := by
  cases hres : (stopLoop orch pods st).2.2 with
  | none =>
    have heq := stopAllInternal_loop_ok_eq orch st nm pods hl hres
    rw [heq]
    refine ⟨?_, ?_, ?_⟩
    · intro p g hmem
      rcases List.mem_append.mp hmem with h1 | h1
      · rcases stopLoop_events orch pods st _ h1 with ⟨q, _, h2⟩ | ⟨q, c, _, h2⟩
        · cases h2; rfl
        · cases h2
      · cases List.mem_singleton.mp h1
    · intro hok
      have hloop := stopLoop_ok orch pods st hok
      refine ⟨?_, hloop.2.2.1, hloop.2.2.2, ?_, rfl⟩
      · intro p hp
        exact List.mem_append.mpr (Or.inl (hloop.2.1 p hp))
      · exact List.getLast?_concat _
    · intro l1 p l2 e hpods hok1 hperr
      exfalso
      have h1 := (stopLoop_eager orch l1 p l2 st e hok1 hperr).1
      rw [← hpods, hres] at h1
      cases h1
  | some e0 =>
    have heq := stopAllInternal_loop_err_eq orch st nm pods e0 hl hres
    rw [heq]
    refine ⟨?_, ?_, ?_⟩
    · intro p g hmem
      rcases stopLoop_events orch pods st _ hmem with ⟨q, _, h2⟩ | ⟨q, c, _, h2⟩
      · cases h2; rfl
      · cases h2
    · intro hok
      exfalso
      have h1 := (stopLoop_ok orch pods st hok).1
      rw [hres] at h1
      cases h1
    · intro l1 p l2 e hpods hok1 hperr
      have heager := stopLoop_eager orch l1 p l2 st e hok1 hperr
      rw [← hpods] at heager
      refine ⟨heager.1, ?_, stopLoop_no_configmap orch pods st⟩
      intro q hq1 hq2 g hmem
      rcases heager.2 q g hmem with h3 | h3
      · exact hq1 h3
      · exact hq2 h3

/-- C5 witness: one matching pod with a registered wait signal, all deletes
succeeding: the pod's handle is removed from the registry, its channel is
recorded closed, and the final event is the config map removal. -/
theorem stopAllInternal_spec_witness :
    lookupH (stopAllInternal
        { listPods := Except.ok ["podA".data], deleteErr := fun _ => none,
          deleteCMErr := none, createCMErr := none, createPodErr := none }
        { nextChan := 1, handles := [("podA".data, 0)], closed := [] }
        "cc-x".data).1.handles "podA".data = none ∧
    0 ∈ (stopAllInternal
        { listPods := Except.ok ["podA".data], deleteErr := fun _ => none,
          deleteCMErr := none, createCMErr := none, createPodErr := none }
        { nextChan := 1, handles := [("podA".data, 0)], closed := [] }
        "cc-x".data).1.closed ∧
    (stopAllInternal
        { listPods := Except.ok ["podA".data], deleteErr := fun _ => none,
          deleteCMErr := none, createCMErr := none, createPodErr := none }
        { nextChan := 1, handles := [("podA".data, 0)], closed := [] }
        "cc-x".data).2.1.getLast? = some (Event.deleteConfigMap "cc-x".data) := by
  have h := stopAllInternal_spec
    { listPods := Except.ok ["podA".data], deleteErr := fun _ => none,
      deleteCMErr := none, createCMErr := none, createPodErr := none }
    { nextChan := 1, handles := [("podA".data, 0)], closed := [] }
    "cc-x".data ["podA".data] rfl
  have hok := h.2.1 (fun p _ => rfl)
  exact ⟨hok.2.1 "podA".data (List.mem_singleton.mpr rfl),
    hok.2.2.1 "podA".data 0 (List.mem_singleton.mpr rfl) rfl,
    hok.2.2.2.1⟩

theorem stopAllInternal_err_eq (orch : Orch) (st : KState) (nm : List Char) (e : GoError)
    (hl : orch.listPods = Except.error e) :
    stopAllInternal orch st nm = (st, [], some e) := by
  rw [stopAllInternal, hl]

theorem closeHandleStep_nextChan (st : KState) (p : List Char) :
    (closeHandleStep st p).1.nextChan = st.nextChan := by
  rw [closeHandleStep]
  cases lookupH st.handles p <;> rfl

theorem stopLoop_nextChan (orch : Orch) (pods : List (List Char)) (st : KState) :
    (stopLoop orch pods st).1.nextChan = st.nextChan := by
  induction pods generalizing st with
  | nil => rfl
  | cons p rest ih =>
    cases hd : orch.deleteErr p with
    | some err =>
      rw [stopLoop_cons_err orch p rest st err hd]
      exact closeHandleStep_nextChan st p
    | none =>
      rw [stopLoop_cons_ok orch p rest st hd, ih]
      exact closeHandleStep_nextChan st p

theorem stopAllInternal_nextChan (orch : Orch) (st : KState) (nm : List Char) :
    (stopAllInternal orch st nm).1.nextChan = st.nextChan := by
  cases hlp : orch.listPods with
  | error e => rw [stopAllInternal_err_eq orch st nm e hlp]
  | ok pods =>
    cases hres : (stopLoop orch pods st).2.2 with
    | none =>
      rw [stopAllInternal_loop_ok_eq orch st nm pods hlp hres]
      exact stopLoop_nextChan orch pods st
    | some e =>
      rw [stopAllInternal_loop_err_eq orch st nm pods e hlp hres]
      exact stopLoop_nextChan orch pods st

theorem stopAllInternal_events (orch : Orch) (st : KState) (nm : List Char) :
    ∀ e ∈ (stopAllInternal orch st nm).2.1, isTeardownEvent e = true := by
  intro e he
  cases hlp : orch.listPods with
  | error e0 =>
    rw [stopAllInternal_err_eq orch st nm e0 hlp] at he
    cases he
  | ok pods =>
    cases hres : (stopLoop orch pods st).2.2 with
    | none =>
      rw [stopAllInternal_loop_ok_eq orch st nm pods hlp hres] at he
      rcases List.mem_append.mp he with h1 | h1
      · rcases stopLoop_events orch pods st _ h1 with ⟨q, _, h2⟩ | ⟨q, c, _, h2⟩ <;> rw [h2] <;> rfl
      · rw [List.mem_singleton.mp h1]; rfl
    | some e1 =>
      rw [stopAllInternal_loop_err_eq orch st nm pods e1 hlp hres] at he
      rcases stopLoop_events orch pods st _ he with ⟨q, _, h2⟩ | ⟨q, c, _, h2⟩ <;> rw [h2] <;> rfl

theorem lookupH_setH_self (h : List (List Char × Nat)) (n : List Char) (c : Nat) :
    lookupH (setH h n c) n = some c := by
  rw [setH, lookupH, if_pos rfl]

theorem append_index_order (l1 l2 : List Event)
    (h1 : ∀ e ∈ l1, isTeardownEvent e = true) (h2 : ∀ e ∈ l2, isTeardownEvent e = false) :
    ∀ (i j : Nat) (e1 : Event) (m : List Char),
      (l1 ++ l2)[i]? = some e1 → isTeardownEvent e1 = true →
      (l1 ++ l2)[j]? = some (Event.createPod m) → i < j := by
  intro i j e1 m hi hPe hj
  have hilen : i < l1.length := by
    by_contra hc
    push_neg at hc
    rw [List.getElem?_append_right hc] at hi
    have hfalse := h2 e1 (List.getElem?_mem hi)
    rw [hPe] at hfalse
    cases hfalse
  have hjlen : l1.length ≤ j := by
    by_contra hc
    push_neg at hc
    rw [List.getElem?_append_left hc] at hj
    have htd := h1 _ (List.getElem?_mem hj)
    simp [isTeardownEvent] at htd
  omega

theorem createDeployment_cases (cfg : Config) (orch : Orch) (nm : List Char)
    (env : List (List Char)) (files : Bundle) (fuel : Nat) :
    createDeployment cfg orch nm env files fuel = none ∨
    (∃ e, createDeployment cfg orch nm env files fuel =
      some ([Event.createConfigMap nm], some e)) ∨
    createDeployment cfg orch nm env files fuel =
      some ([Event.createConfigMap nm, Event.createPod nm], orch.createPodErr) := by
  rw [createDeployment]
  cases extractCommonRoot fuel files with
  | none => exact Or.inl rfl
  | some x =>
    cases orch.createCMErr with
    | some e => exact Or.inr (Or.inl ⟨e, rfl⟩)
    | none =>
      cases envSplit env with
      | none => exact Or.inl rfl
      | some y =>
        cases (getResourceRequest cfg).2 with
        | some e => exact Or.inr (Or.inl ⟨e, rfl⟩)
        | none => exact Or.inr (Or.inr rfl)

theorem startCC_eq (cfg : Config) (orch : Orch) (st : KState) (peerID : List Char)
    (ccid : CCID) (env : List (List Char)) (files : Bundle) (fuel : Nat) :
    startCC cfg orch st peerID ccid env files fuel =
      match createDeployment cfg orch (getPodName peerID ccid) env files fuel with
      | none => none
      | some (evs2, some e) =>
        some ((stopAllInternal orch st (getPodName peerID ccid)).1,
          (stopAllInternal orch st (getPodName peerID ccid)).2.1 ++ evs2, some e)
      | some (evs2, none) =>
        some ({ nextChan := (stopAllInternal orch st (getPodName peerID ccid)).1.nextChan + 1,
                handles := setH (stopAllInternal orch st (getPodName peerID ccid)).1.handles
                  (getPodName peerID ccid)
                  (stopAllInternal orch st (getPodName peerID ccid)).1.nextChan,
                closed := (stopAllInternal orch st (getPodName peerID ccid)).1.closed },
          (stopAllInternal orch st (getPodName peerID ccid)).2.1 ++ evs2 ++
            [Event.registerChan (getPodName peerID ccid)
              (stopAllInternal orch st (getPodName peerID ccid)).1.nextChan], none) := rfl

/-- C6: for every Start run that returns (startCC yields a result): the
returned error is exactly the deployment phase's own result, whatever the
teardown oracles did, so a teardown failure never aborts Start, and the
create phase is reached (the config map creation event is in the trace);
every teardown event strictly precedes every orchestrator pod create in the
trace; on a create failure that error is returned, no wait signal is
registered and the registry is exactly what the teardown left; on success a
wait signal holding the freshly allocated channel id is registered under the
derived pod name, the channel counter advances, and under the invariant that
previously registered channel ids are below the counter the registered id is
distinct from every previously registered one. -/
theorem startCC_spec (cfg : Config) (orch : Orch) (st : KState) (peerID : List Char)
    (ccid : CCID) (env : List (List Char)) (files : Bundle) (fuel : Nat)
    (st2 : KState) (tr : List Event) (r : Option GoError)
    (hrun : startCC cfg orch st peerID ccid env files fuel = some (st2, tr, r)) :
    (∃ evs2, createDeployment cfg orch (getPodName peerID ccid) env files fuel =
        some (evs2, r) ∧ Event.createConfigMap (getPodName peerID ccid) ∈ tr) ∧
    (∀ (i j : Nat) (e1 : Event) (m : List Char),
      tr[i]? = some e1 → isTeardownEvent e1 = true →
      tr[j]? = some (Event.createPod m) → i < j) ∧
    (∀ e, r = some e →
      st2 = (stopAllInternal orch st (getPodName peerID ccid)).1 ∧
      ∀ m c, Event.registerChan m c ∉ tr) ∧
    (r = none →
      st2.handles = setH (stopAllInternal orch st (getPodName peerID ccid)).1.handles
        (getPodName peerID ccid) st.nextChan ∧
      lookupH st2.handles (getPodName peerID ccid) = some st.nextChan ∧
      Event.registerChan (getPodName peerID ccid) st.nextChan ∈ tr ∧
      st2.nextChan = st.nextChan + 1 ∧
      ((∀ q c, lookupH st.handles q = some c → c < st.nextChan) →
        ∀ q c, lookupH st.handles q = some c → c ≠ st.nextChan)) := by
  rw [startCC_eq] at hrun
  have hnext := stopAllInternal_nextChan orch st (getPodName peerID ccid)
  rcases createDeployment_cases cfg orch (getPodName peerID ccid) env files fuel with
    hdep | ⟨e0, hdep⟩ | hdep
  · rw [hdep] at hrun
    cases hrun
  · rw [hdep] at hrun
    rw [Option.some.injEq, Prod.mk.injEq] at hrun
    obtain ⟨hst2, hrest⟩ := hrun
    rw [Prod.mk.injEq] at hrest
    obtain ⟨htr, hr⟩ := hrest
    subst hst2
    subst htr
    subst hr
    refine ⟨⟨[Event.createConfigMap (getPodName peerID ccid)], hdep, ?_⟩, ?_, ?_, ?_⟩
    · exact List.mem_append.mpr (Or.inr (List.mem_singleton.mpr rfl))
    · apply append_index_order
      · exact stopAllInternal_events orch st _
      · intro ev hev
        rw [List.mem_singleton.mp hev]
        rfl
    · intro e _
      refine ⟨rfl, ?_⟩
      intro m c hmem
      rcases List.mem_append.mp hmem with h1 | h1
      · have hh := stopAllInternal_events orch st _ _ h1
        simp [isTeardownEvent] at hh
      · cases List.mem_singleton.mp h1
    · intro hnone
      cases hnone
  · cases hcp : orch.createPodErr with
    | some e0 =>
      rw [hdep, hcp] at hrun
      rw [Option.some.injEq, Prod.mk.injEq] at hrun
      obtain ⟨hst2, hrest⟩ := hrun
      rw [Prod.mk.injEq] at hrest
      obtain ⟨htr, hr⟩ := hrest
      subst hst2
      subst htr
      subst hr
      rw [hcp] at hdep
      refine ⟨⟨[Event.createConfigMap (getPodName peerID ccid),
        Event.createPod (getPodName peerID ccid)], hdep, ?_⟩, ?_, ?_, ?_⟩
      · exact List.mem_append.mpr (Or.inr (List.mem_cons_self _ _))
      · apply append_index_order
        · exact stopAllInternal_events orch st _
        · intro ev hev
          rcases List.mem_cons.mp hev with h1 | h1
          · rw [h1]; rfl
          · rw [List.mem_singleton.mp h1]; rfl
      · intro e _
        refine ⟨rfl, ?_⟩
        intro m c hmem
        rcases List.mem_append.mp hmem with h1 | h1
        · have hh := stopAllInternal_events orch st _ _ h1
          simp [isTeardownEvent] at hh
        · rcases List.mem_cons.mp h1 with h2 | h2
          · cases h2
          · cases List.mem_singleton.mp h2
      · intro hnone
        cases hnone
    | none =>
      rw [hdep, hcp] at hrun
      rw [Option.some.injEq, Prod.mk.injEq] at hrun
      obtain ⟨hst2, hrest⟩ := hrun
      rw [Prod.mk.injEq] at hrest
      obtain ⟨htr, hr⟩ := hrest
      subst hst2
      subst htr
      subst hr
      rw [hcp] at hdep
      refine ⟨⟨[Event.createConfigMap (getPodName peerID ccid),
        Event.createPod (getPodName peerID ccid)], hdep, ?_⟩, ?_, ?_, ?_⟩
      · refine List.mem_append.mpr (Or.inl ?_)
        exact List.mem_append.mpr (Or.inr (List.mem_cons_self _ _))
      · rw [List.append_assoc]
        apply append_index_order
        · exact stopAllInternal_events orch st _
        · intro ev hev
          rcases List.mem_append.mp hev with h1 | h1
          · rcases List.mem_cons.mp h1 with h2 | h2
            · rw [h2]; rfl
            · rw [List.mem_singleton.mp h2]; rfl
          · rw [List.mem_singleton.mp h1]; rfl
      · intro e he
        cases he
      · intro _
        refine ⟨?_, ?_, ?_, ?_, ?_⟩
        · show setH (stopAllInternal orch st (getPodName peerID ccid)).1.handles
            (getPodName peerID ccid)
            (stopAllInternal orch st (getPodName peerID ccid)).1.nextChan =
            setH (stopAllInternal orch st (getPodName peerID ccid)).1.handles
            (getPodName peerID ccid) st.nextChan
          rw [hnext]
        · show lookupH (setH (stopAllInternal orch st (getPodName peerID ccid)).1.handles
            (getPodName peerID ccid)
            (stopAllInternal orch st (getPodName peerID ccid)).1.nextChan)
            (getPodName peerID ccid) = some st.nextChan
          rw [hnext]
          exact lookupH_setH_self _ _ _
        · rw [← hnext]
          refine List.mem_append.mpr (Or.inr ?_)
          exact List.mem_singleton.mpr rfl
        · show (stopAllInternal orch st (getPodName peerID ccid)).1.nextChan + 1 =
            st.nextChan + 1
          rw [hnext]
        · intro hwf q c hq
          have := hwf q c hq
          omega

/-- C6 witness: an empty cluster and registry, a succeeding create: Start
registers the fresh channel 0 under the derived name cc-p-cc, after the
teardown's config map delete and the create events. -/
theorem startCC_spec_witness :
    Event.registerChan "cc-p-cc".data 0 ∈
      [Event.deleteConfigMap "cc-p-cc".data, Event.createConfigMap "cc-p-cc".data,
        Event.createPod "cc-p-cc".data, Event.registerChan "cc-p-cc".data 0] := by
  have h := startCC_spec (fun _ => []) ⟨Except.ok [], fun _ => none, none, none, none⟩
    ⟨0, [], []⟩ "p".data ⟨"cc".data, "1".data⟩ [] [] 1
    ⟨1, [("cc-p-cc".data, 0)], []⟩
    [Event.deleteConfigMap "cc-p-cc".data, Event.createConfigMap "cc-p-cc".data,
      Event.createPod "cc-p-cc".data, Event.registerChan "cc-p-cc".data 0] none (by decide)
  exact (h.2.2.2 rfl).2.2.1

/-- C7: Wait on a descriptor whose derived pod name has no registered signal
fails immediately with the not-found error naming that pod (no blocking on
an unregistered unit); with a signal registered under the derived name, Wait
blocks on that channel until it fires or is closed and then returns exit
status zero with no error. -/
theorem waitCC_spec (st : KState) (peerID : List Char) (ccid : CCID) :
    (lookupH st.handles (getPodName peerID ccid) = none →
      waitCC st peerID ccid =
        WaitOutcome.immediate 0 (some (GoError.notFound (getPodName peerID ccid)))) ∧
    (∀ c, lookupH st.handles (getPodName peerID ccid) = some c →
      waitCC st peerID ccid = WaitOutcome.blockThenReturn c 0 none) := by
  constructor
  · intro h
    rw [waitCC, h]
  · intro c h
    rw [waitCC, h]

/-- C7 witness: with channel 0 registered under cc-p-cc, Wait blocks and then
reports exit zero with no error; with an empty registry it immediately
returns the not-found error. -/
theorem waitCC_spec_witness :
    waitCC ⟨1, [("cc-p-cc".data, 0)], []⟩ "p".data ⟨"cc".data, "1".data⟩ =
      WaitOutcome.blockThenReturn 0 0 none ∧
    waitCC ⟨0, [], []⟩ "p".data ⟨"cc".data, "1".data⟩ =
      WaitOutcome.immediate 0 (some (GoError.notFound "cc-p-cc".data)) := by
  have h1 := waitCC_spec ⟨1, [("cc-p-cc".data, 0)], []⟩ "p".data ⟨"cc".data, "1".data⟩
  have h2 := waitCC_spec ⟨0, [], []⟩ "p".data ⟨"cc".data, "1".data⟩
  exact ⟨h1.2 0 (by decide), (h2.1 (by decide)).trans (by decide)⟩

/-- C8: each environment entry is split on the first separator only, so
KEY=a=b=c yields name KEY and value a=b=c (second and third conjuncts); and
the unguarded indexing of the split at position 1 is safe exactly when every
entry contains at least one separator: the environment loop completes
(rather than panicking out of range) iff every entry contains one. -/
theorem envSplit_spec (env : List (List Char)) :
    ((∃ ps, envSplit env = some ps) ↔ ∀ v ∈ env, '=' ∈ v) ∧
    splitN2 "KEY=a=b=c".data '=' = ["KEY".data, "a=b=c".data] ∧
    envSplit ["KEY=a=b=c".data] = some [("KEY".data, "a=b=c".data)] := by
  refine ⟨?_, by decide, by decide⟩
  induction env with
  | nil =>
    constructor
    · intro _ v hv
      cases hv
    · intro _
      exact ⟨[], rfl⟩
  | cons v rest ih =>
    by_cases hv : '=' ∈ v
    · have hsp : splitN2 v '=' = [v.takeWhile (fun c => c ≠ '='),
          (v.dropWhile (fun c => c ≠ '=')).drop 1] := by
        rw [splitN2, if_pos hv]
      rw [envSplit, hsp]
      constructor
      · intro h q hq
        rcases List.mem_cons.mp hq with h1 | h1
        · rw [h1]; exact hv
        · obtain ⟨ps, hps⟩ := h
          cases hrest : envSplit rest with
          | none => rw [hrest] at hps; cases hps
          | some qs => exact (ih.mp ⟨qs, hrest⟩) q h1
      · intro h
        obtain ⟨qs, hqs⟩ := ih.mpr (fun q hq => h q (List.mem_cons_of_mem v hq))
        rw [hqs]
        exact ⟨_, rfl⟩
    · have hsp : splitN2 v '=' = [v] := by
        rw [splitN2, if_neg hv]
      rw [envSplit, hsp]
      constructor
      · intro h
        obtain ⟨ps, hps⟩ := h
        cases hps
      · intro h
        exact absurd (h v (List.mem_cons_self v rest)) hv

/-- C9 counterexample: the owner and descriptor pairs (a-b, c) and (a, b-c),
distinct since the owners differ, derive the same pod name cc-a-b-c: the
derived name is not unique per owner and descriptor pair. -/
theorem getPodName_not_injective :
    getPodName "a-b".data ⟨"c".data, "1".data⟩ = getPodName "a".data ⟨"b-c".data, "1".data⟩ ∧
    "a-b".data ≠ "a".data := by decide

/-- C9 (amended): the derived name is a pure, deterministic function of the
owner id and the descriptor and every character of it belongs to the safe
class a-zA-Z0-9 dash underscore dot, every other character having been
collapsed to a dash; uniqueness per owner and descriptor pair does not hold
(see the counterexample). -/
theorem getPodName_safe_chars (peerID : List Char) (ccid : CCID) :
    (getPodName peerID ccid).all isPodNameSafeChar = true := by
  rw [List.all_eq_true]
  intro c hc
  rw [getPodName] at hc
  split at hc <;>
  · rw [podSanitize] at hc
    obtain ⟨a, _, ha⟩ := List.mem_map.mp hc
    by_cases hs : isPodNameSafeChar a
    · rw [if_pos hs] at ha
      rw [← ha]
      exact hs
    · rw [if_neg hs] at ha
      rw [← ha]
      rfl

/-- C10: Stop's teardown decision is determined solely by dontremove: the
teardown runs exactly when dontremove is false, and with dontremove true
Stop returns nil having issued no orchestrator call and left the state
unchanged; the timeout and dontkill arguments never affect the result. -/
theorem stopCC_spec (orch : Orch) (st : KState) (peerID : List Char) (ccid : CCID)
    (timeout : Nat) (dontkill dontremove : Bool) :
    stopCC orch st peerID ccid timeout dontkill dontremove =
      (if dontremove then (st, [], none)
        else stopAllInternal orch st (getPodName peerID ccid)) ∧
    (∀ (timeout2 : Nat) (dontkill2 : Bool),
      stopCC orch st peerID ccid timeout dontkill dontremove =
        stopCC orch st peerID ccid timeout2 dontkill2 dontremove) := by
  constructor
  · cases dontremove <;> rfl
  · intro t2 dk2
    rfl

example :
    extractCommonRoot 9 [("/one".data, 1), ("/two".data, 2)] =
      some ("/one".data, [([], 1), ("/two".data, 2)]) := by decide

end Fabric
